import Mathlib

/-!
Verification of the configuration loading/merging/defaulting pipeline of
`packages/netlify-cms-core/src/actions/config.js`.

JavaScript values flowing through the pipeline (plain objects, Immutable.js
maps/lists produced by `fromJS`, YAML documents) are embedded as one value
tree `JVal`; objects/maps are association lists with JavaScript object
semantics (updating an existing key keeps its position, a fresh key is
appended).  `undefined` is represented by `Option.none` at lookup sites.
Code that can throw is embedded as `Option`/`Except` returning functions.
-/

namespace NetlifyCMS

/-- A JavaScript/YAML value: `null`, booleans, numbers, strings, arrays and
objects (association lists).  Immutable.js `Map`/`List` values produced by
`fromJS` are represented the same way, since the code only uses
`get`/`set`/`has`/`merge` operations whose semantics coincide. -/
inductive JVal where
  | null : JVal
  | bool (b : Bool) : JVal
  | num (n : Int) : JVal
  | str (s : String) : JVal
  | arr (xs : List JVal) : JVal
  | obj (kvs : List (String × JVal)) : JVal

/-- Property lookup on an object: first binding wins (JS objects have unique
keys; association lists model them).  Missing key is JS `undefined`. -/
def objGet : List (String × JVal) → String → Option JVal
  | [], _ => none
  | (k', v) :: rest, k => if k' = k then some v else objGet rest k

/-- Property assignment on an object (also Immutable `Map.set`): an existing
key is updated in place, a fresh key is appended. -/
def objSet : List (String × JVal) → String → JVal → List (String × JVal)
  | [], k, v => [(k, v)]
  | (k', v') :: rest, k, v =>
      if k' = k then (k, v) :: rest else (k', v') :: objSet rest k v

/-- `lodash.omit` of one key: drop every binding of that key. -/
def objDelete (kvs : List (String × JVal)) (k : String) : List (String × JVal) :=
  kvs.filter (fun p => p.1 ≠ k)

/-- `value[key]` / Immutable `get`: property read; reading from a non-object
yields `undefined`. -/
def JVal.get : JVal → String → Option JVal
  | .obj kvs, k => objGet kvs k
  | _, _ => none

/-- `Object.keys`. -/
def objKeys : JVal → List String
  | .obj kvs => kvs.map Prod.fst
  | _ => []

/-- `value.getIn([k1, k2])` on a `JVal`: two property reads, `undefined`
when either level is missing or not an object. -/
def jGetIn2 (v : JVal) (k1 k2 : String) : Option JVal :=
  match v.get k1 with
  | some w => w.get k2
  | none => none

/-- JavaScript truthiness of a possibly-`undefined` value. -/
def truthy : Option JVal → Bool
  | none => false
  | some .null => false
  | some (.bool b) => b
  | some (.num n) => n != 0
  | some (.str s) => !s.data.isEmpty
  | some (.arr _) => true
  | some (.obj _) => true

/-- `lodash.trimStart(s, '/')`: remove every leading `/`. -/
def trimSlashes (s : String) : String :=
  ⟨s.data.dropWhile (fun c => c == '/')⟩

mutual

/-- Immutable.js 3.x `a.mergeDeep(b)` (the version this package vendors):
two maps merge entry-wise (`mergeOver`); two lists merge **index-wise**
(`mergeLists`: colliding indices are deep-merged and the longer side's tail
survives — a loaded list does not replace a longer preloaded one); any other
right-hand value replaces the left-hand one (3.x's `deepMerger` recurses
only when the existing value has `mergeDeep` and the new value is iterable,
so a scalar on either side means the right side wins).  Modelling boundary:
a collision between a map and a list, which Immutable 3.x resolves by
splicing numeric-keyed entries of one collection kind into the other, is
modelled as replacement; no key of a configuration document collides
map-with-list. -/
def mergeDeep : JVal → JVal → JVal
  | .obj a, .obj b => .obj (mergeOver a b)
  | .arr a, .arr b => .arr (mergeLists a b)
  | _, b => b
termination_by _ b => (sizeOf b, 0)
decreasing_by
  all_goals simp_wf
  all_goals apply Prod.Lex.left
  all_goals omega

/-- Index-wise list merge of Immutable 3.x (`mergeIntoListWith`): positions
present on both sides are deep-merged, the tail of the longer list is
kept. -/
def mergeLists : List JVal → List JVal → List JVal
  | [], ys => ys
  | x :: xs, [] => x :: xs
  | x :: xs, y :: ys => mergeDeep x y :: mergeLists xs ys
termination_by _ ys => (sizeOf ys, 0)
decreasing_by
  all_goals simp_wf
  all_goals apply Prod.Lex.left
  all_goals omega

/-- Fold the entries of `b` into `a`, one key at a time. -/
def mergeOver (a : List (String × JVal)) : List (String × JVal) → List (String × JVal)
  | [] => a
  | (k, v) :: rest => mergeOver (mergeKey a k v) rest
termination_by l => (sizeOf l, 0)
decreasing_by
  all_goals simp_wf
  all_goals apply Prod.Lex.left
  all_goals omega

/-- Merge one binding `k ↦ v` into `a`: an existing binding is deep-merged in
place, a fresh key is appended. -/
def mergeKey (a : List (String × JVal)) (k : String) (v : JVal) : List (String × JVal) :=
  match a with
  | [] => [(k, v)]
  | (k', v') :: restA =>
      if k' = k then (k, mergeDeep v' v) :: restA else (k', v') :: mergeKey restA k v
termination_by (sizeOf v + 1, sizeOf a)
decreasing_by
  all_goals simp_wf
  · apply Prod.Lex.left; omega
  · apply Prod.Lex.right; omega

end

/-! ### `addLanguageFields` and its helpers -/

/-- JavaScript strict equality `name !== identifier` between the field's
`name` property (any value, possibly `undefined`) and the identifier string
(possibly `undefined`): `nameIs n i = true` iff `n === i`. -/
def nameIs : Option JVal → Option String → Bool
  | some (.str s), some t => s = t
  | none, none => true
  | _, _ => false

/-- `lang.toUpperCase()` (ASCII, which covers language codes). -/
def jsToUpper (s : String) : String :=
  ⟨s.data.map Char.toUpper⟩

/-- One translated sub-field:
`{ ...omit(cloneDeep(item), 'translate'), label: lang.toUpperCase(), name: lang }`. -/
def translatedSubfield (o : List (String × JVal)) (lang : String) : JVal :=
  .obj (objSet (objSet (objDelete o "translate") "label" (.str (jsToUpper lang)))
        "name" (.str lang))

/-- The generated wrapper field:
`{ ...omit(item, 'translate'), widget: 'object', fields: langFields }`. -/
def translatedWrapper (o : List (String × JVal)) (langs : List String) : JVal :=
  .obj (objSet (objSet (objDelete o "translate") "widget" (.str "object"))
        "fields" (.arr (langs.map (translatedSubfield o))))

/-- The body of the `reduce` in `addLanguageFields`: a field marked
`translate` whose name is neither the identifier nor `body` becomes the
wrapper; every other item passes through unchanged (a non-object item has
`item.translate === undefined`, which is falsy). -/
def expandField (langs : List String) (identifier : Option String) (item : JVal) : JVal :=
  match item with
  | .obj o =>
      if truthy (objGet o "translate")
          && !nameIs (objGet o "name") identifier
          && !nameIs (objGet o "name") (some "body") then
        translatedWrapper o langs
      else item
  | _ => item

/-- `addLanguageFields(fields, langs, identifier)`: the source folds with
`reduce`, appending exactly one element per item. -/
def addLanguageFields (fields : List JVal) (langs : List String)
    (identifier : Option String) : List JVal :=
  fields.foldl (fun acc item => acc ++ [expandField langs identifier item]) []

/-- Modelled from the spec: `selectIdentifier` (exported by
`Reducers/collections`, which is not under `src/`) returns "the collection's
identifier field" name, used only to exclude that field from language
expansion; the claims treat it as an opaque per-collection string, so the
model reads the collection's `identifier_field` entry when it is a string. -/
def selectIdentifier (c : List (String × JVal)) : Option String :=
  match objGet c "identifier_field" with
  | some (.str s) => some s
  | _ => none

/-! ### `applyDefaults` -/

/-- The `defaults` constant.  The value of `publishModes.SIMPLE` comes from
`Constants/publishModes` (not under `src/`); only its presence matters to the
claims. -/
def defaults : List (String × JVal) := [("publish_mode", .str "simple")]

/-- Coerce a possibly-`undefined` value to the string `lodash.trimStart`
sees: `undefined`/`null` become `""`; the claims only exercise string (or
absent) folder values, so other coercions are left at `""` as well. -/
def jsToStr : Option JVal → String
  | some (.str s) => s
  | _ => ""

/-- Step: use `site_url` as default `display_url`. -/
def stepDisplayUrl (kvs : List (String × JVal)) : List (String × JVal) :=
  if !truthy (objGet kvs "display_url") && truthy (objGet kvs "site_url") then
    objSet kvs "display_url" ((objGet kvs "site_url").getD .null)
  else kvs

/-- Step: use `media_folder` as default `public_folder` (the default is
`'/' + trimStart(media_folder, '/')`, installed only when the current
`public_folder` is falsy). -/
def stepPublicFolder (kvs : List (String × JVal)) : List (String × JVal) :=
  let defaultPublicFolder := "/" ++ trimSlashes (jsToStr (objGet kvs "media_folder"))
  if truthy (objGet kvs "public_folder") then kvs
  else objSet kvs "public_folder" (.str defaultPublicFolder)

/-- Immutable `getIn([k1, k2])`: descending into a missing or non-collection
value yields `undefined`. -/
def getIn2 (kvs : List (String × JVal)) (k1 k2 : String) : Option JVal :=
  match objGet kvs k1 with
  | some (.obj o) => objGet o k2
  | _ => none

/-- Immutable `setIn([k1, k2], v)`: a missing intermediate map is created,
but setting through an existing non-collection value throws (`none`). -/
def setIn2 (kvs : List (String × JVal)) (k1 k2 : String) (v : JVal) :
    Option (List (String × JVal)) :=
  match objGet kvs k1 with
  | some (.obj o) => some (objSet kvs k1 (.obj (objSet o k2 v)))
  | none => some (objSet kvs k1 (.obj [(k2, v)]))
  | some _ => none

/-- One `if (!map.getIn(['slug', key])) map.setIn(['slug', key], val)`
statement: keep the map when the current value `g` is truthy, otherwise
`setIn`. -/
def slugStage (g : Bool) (cur : List (String × JVal)) (key : String) (val : JVal) :
    Option (List (String × JVal)) :=
  if g then some cur else setIn2 cur "slug" key val

/-- Step: default values for the slug config (each sub-key is installed when
the current value is falsy). -/
def stepSlug (kvs : List (String × JVal)) : Option (List (String × JVal)) :=
  (slugStage (truthy (getIn2 kvs "slug" "encoding")) kvs "encoding" (.str "unicode")).bind
    fun k1 =>
      (slugStage (truthy (getIn2 k1 "slug" "clean_accents")) k1 "clean_accents"
        (.bool false)).bind
        fun k2 =>
          slugStage (truthy (getIn2 k2 "slug" "sanitize_replacement")) k2
            "sanitize_replacement" (.str "-")

/-- The JS `Array.map`-with-throwing-callback: `none` aborts the whole map,
as a thrown exception would. -/
def mapOption (f : α → Option β) : List α → Option (List β)
  | [] => some []
  | a :: rest => do
      let b ← f a
      let bs ← mapOption f rest
      return b :: bs

/-- `langs.map(...)` requires every language code to respond to
`toUpperCase`, i.e. to be a string; anything else throws. -/
def langStrings : List JVal → Option (List String)
  | [] => some []
  | .str s :: rest => (langStrings rest).map (fun ls => s :: ls)
  | _ => none

/-- `file.set('file', trimStart(file.get('file'), '/'))` for one entry of a
`files` collection: a non-map entry throws, a missing path trims to `""`
(`trimStart(undefined, '/') === ''`). -/
def trimFile : JVal → Option JVal
  | .obj fo =>
      match objGet fo "file" with
      | some (.str s) => some (.obj (objSet fo "file" (.str (trimSlashes s))))
      | none => some (.obj (objSet fo "file" (.str "")))
      | some .null => some (.obj (objSet fo "file" (.str "")))
      | some _ => none
  | _ => none

/-- The `files` half of the per-collection callback: reached when `folder` is
falsy.  A collection with neither a truthy `folder` nor a truthy `files`
falls off the end of the arrow function, producing `undefined` (modelled as
`JVal.null` inside the resulting list). -/
def filesBranch (c : List (String × JVal)) : Option JVal :=
  match objGet c "files" with
  | some filesV =>
      if truthy (some filesV) then
        match filesV with
        | .arr fs =>
            (mapOption trimFile fs).map (fun fs' => .obj (objSet c "files" (.arr fs')))
        | _ => none
      else some .null
  | none => some .null

/-- The `if (langs && fields)` block of the per-collection callback: replace
`fields` with the language-expanded fields (via `toJS`/`fromJS`, identities
in this value model); a truthy non-list `languages` or `fields` value throws
(`.toJS`/`.map` is not a function). -/
def collFields (langs : Option JVal) (c1 : List (String × JVal)) :
    Option (List (String × JVal)) :=
  if truthy langs && truthy (objGet c1 "fields") then
    match langs, objGet c1 "fields" with
    | some (.arr ls), some (.arr fs) =>
        match langStrings ls with
        | some ls' =>
            some (objSet c1 "fields"
              (.arr (addLanguageFields fs ls' (selectIdentifier c1))))
        | none => none
    | _, _ => none
  else some c1

/-- The per-collection callback of the `collections` step: default
`media_folder` when `path` is declared but `media_folder` is not, expand
language fields, strip the leading slashes from `folder`; otherwise handle
`files`.  A non-map collection throws (`collection.get` is not a
function). -/
def applyCollection (langs : Option JVal) (col : JVal) : Option JVal :=
  match col with
  | .obj c =>
      match objGet c "folder" with
      | some folderV =>
          if truthy (some folderV) then
            match folderV with
            | .str f =>
                (collFields langs
                  (if (objGet c "path").isSome && !(objGet c "media_folder").isSome then
                    objSet c "media_folder" (.str "")
                  else c)).bind
                  (fun c2 => some (.obj (objSet c2 "folder" (.str (trimSlashes f)))))
            | _ => none
          else filesBranch c
      | none => filesBranch c
  | _ => none

/-- Step: map the per-collection callback over `collections`; a missing or
non-list `collections` throws (`undefined.map`). -/
def stepCollections (kvs : List (String × JVal)) : Option (List (String × JVal)) :=
  match objGet kvs "collections" with
  | some (.arr cols) =>
      (mapOption (applyCollection (objGet kvs "languages")) cols).map
        (fun cols' => objSet kvs "collections" (.arr cols'))
  | _ => none

/-- `applyDefaults(config)`: `Map(defaults).mergeDeep(config)` followed by
the mutation steps in source order.  `none` models a thrown exception (the
`withMutations` body throws on a scalar document or a missing or non-list
`collections`). -/
def applyDefaults (config : JVal) : Option JVal :=
  match mergeDeep (.obj defaults) config with
  | .obj kvs =>
      ((stepSlug (stepPublicFolder (stepDisplayUrl kvs))).bind stepCollections).map JVal.obj
  | _ => none

/-! ### `parseConfig`, `getConfig` and `loadConfig` -/

/-- The errors a load can throw. -/
inductive LoadErr where
  | loadError (status : Option Nat) : LoadErr
  | typeError : LoadErr
  | yamlError : LoadErr
  | validationError : LoadErr
  | defaultsError : LoadErr
deriving Repr, DecidableEq

/-- The parts of a `fetch` response the code reads. -/
structure FetchResponse where
  status : Nat
  contentType : Option String
  body : String

/-- The ambient effects and globals `loadConfig` consults.
`cmsConfig` is `window.CMS_CONFIG` when present and truthy; `cmsEnv` is the
build-time `CMS_ENV` global when it is defined as a string; `safeLoad`
models the external `js-yaml` parser (`.ok none` is an empty document
parsing to `undefined`); `fetchResult` models `fetch(configUrl)` (`.error`
is a transport failure); `validate` models `validateConfig` from
`Constants/configSchema` (not under `src/`), which throws exactly when the
document violates the schema. -/
structure LoadEnv where
  cmsConfig : Option JVal
  cmsEnv : Option String
  safeLoad : String → Except Unit (Option JVal)
  fetchResult : Except Unit FetchResponse
  validate : JVal → Bool

/-- Does the character list start with `yaml`? -/
def startsYaml : List Char → Bool
  | 'y' :: 'a' :: 'm' :: 'l' :: _ => true
  | _ => false

/-- `contentType.indexOf('yaml') !== -1`. -/
def containsYaml (s : String) : Bool :=
  go s.data
where
  go : List Char → Bool
    | [] => false
    | c :: rest => startsYaml (c :: rest) || go rest

/-- The loop `Object.keys(config[CMS_ENV]).forEach(key => { config[key] =
config[CMS_ENV][key] })`: the key list is computed once, but `config[CMS_ENV]`
is re-read on every iteration; assigning a property that reads back as
`undefined` stores `null` in the model. -/
def hoistKeys (e : String) : List String → List (String × JVal) → List (String × JVal)
  | [], c => c
  | k :: rest, c =>
      let v : JVal :=
        match objGet c e with
        | some ov => (ov.get k).getD .null
        | none => .null
      hoistKeys e rest (objSet c k v)

/-- `parseConfig(data)`: parse the YAML body, then hoist the children of the
`CMS_ENV`-named top-level key (when `CMS_ENV` is a string and that key is
truthy) over the sibling top-level keys.  When `CMS_ENV` is a string and the
document parsed to `undefined`, the property read `config[CMS_ENV]` throws a
`TypeError`. -/
def parseConfig (env : LoadEnv) (data : String) : Except LoadErr (Option JVal) :=
  match env.safeLoad data with
  | .error _ => .error .yamlError
  | .ok cfgOpt =>
      match env.cmsEnv with
      | none => .ok cfgOpt
      | some e =>
          match cfgOpt with
          | none => .error .typeError
          | some cfg =>
              match cfg with
              | .obj c =>
                  match objGet c e with
                  | some ov =>
                      if truthy (some ov) then
                        .ok (some (.obj (hoistKeys e (objKeys ov) c)))
                      else .ok (some cfg)
                  | none => .ok (some cfg)
              | _ => .ok (some cfg)

/-- `getConfig(file, isPreloaded)`: a transport failure or a non-200 status
throws a load error unless a preloaded config exists, in which case the body
is treated as empty; a non-yaml content type on a preloaded load is also
treated as empty, otherwise the body is parsed. -/
def getConfig (env : LoadEnv) (preloaded : Bool) : Except LoadErr (Option JVal) :=
  match env.fetchResult with
  | .error _ =>
      if preloaded then parseConfig env ""
      else .error (.loadError none)
  | .ok r =>
      if r.status ≠ 200 then
        if preloaded then parseConfig env ""
        else .error (.loadError (some r.status))
      else if !containsYaml (r.contentType.getD "Not-Found") && preloaded then
        parseConfig env ""
      else parseConfig env r.body

/-- `fromJS(loadedConfig) || Map()` merged into the preloaded config:
`preloadedConfig ? preloadedConfig.mergeDeep(map) : map`.  `pre = none`
models an absent (null) prior configuration. -/
def mergePreloadedConfig (pre : Option JVal) (loaded : Option JVal) : JVal :=
  let m : JVal :=
    match loaded with
    | some v => if truthy (some v) then v else .obj []
    | none => .obj []
  match pre with
  | some p => mergeDeep p m
  | none => m

/-- `preloadedConfig && preloadedConfig.get('load_config_file') === false`. -/
def loadConfigFileFalse : Option JVal → Bool
  | some p =>
      match p.get "load_config_file" with
      | some (.bool false) => true
      | _ => false
  | none => false

/-- `preloadedConfig && preloadedConfig.size > 1`: the `size` of an Immutable
collection is its number of entries; reading `.size` off a scalar gives
`undefined`, and `undefined > 1` is false. -/
def sizeGtOne : Option JVal → Bool
  | some (.obj kvs) => 1 < kvs.length
  | some (.arr xs) => 1 < xs.length
  | some _ => false
  | none => false

/-- The `loadedConfig` value of `loadConfig`: skip the fetch entirely when
the preloaded config says `load_config_file: false` (the literal `{}`),
otherwise fetch. -/
def loadedDoc (env : LoadEnv) (pre : Option JVal) : Except LoadErr (Option JVal) :=
  if loadConfigFileFalse pre then .ok (some (.obj []))
  else getConfig env (sizeGtOne pre)

/-- The `mergedConfig` value of `loadConfig`: merge any existing
configuration so the result can be validated. -/
def mergedDoc (env : LoadEnv) (pre : Option JVal) : Except LoadErr JVal :=
  (loadedDoc env pre).map (mergePreloadedConfig pre)

/-- The body of the `try` block, up to the configuration that gets
published: fetch, parse, merge, validate, apply defaults; each step's throw
aborts the rest. -/
def pipeline (env : LoadEnv) (pre : Option JVal) : Except LoadErr JVal :=
  match mergedDoc env pre with
  | .error e => .error e
  | .ok merged =>
      if env.validate merged then
        match applyDefaults merged with
        | some cfg => .ok cfg
        | none => .error .defaultsError
      else .error .validationError

/-- The redux actions `loadConfig` can dispatch (`authUser` stands for the
external `authenticateUser()` thunk dispatched after a successful load). -/
inductive Action where
  | configRequest : Action
  | configSuccess (payload : JVal) : Action
  | configFailure (err : LoadErr) : Action
  | configMerge (payload : JVal) : Action
  | authUser : Action

/-- What one run of the `loadConfig` thunk does: the dispatched actions in
order, and the thunk's outcome (`.error e` models the re-thrown error). -/
structure LoadResult where
  actions : List Action
  outcome : Except LoadErr Unit

/-- `loadConfig()`: when `window.CMS_CONFIG` is present (and truthy) the
returned thunk is `configDidLoad(fromJS(window.CMS_CONFIG))`, which only
dispatches `CONFIG_SUCCESS`; otherwise dispatch `CONFIG_REQUEST`, run the
pipeline, and either dispatch `CONFIG_SUCCESS` followed by the
authentication thunk, or dispatch `CONFIG_FAILURE` and re-throw. -/
def loadConfig (env : LoadEnv) (pre : Option JVal) : LoadResult :=
  match env.cmsConfig with
  | some c => { actions := [.configSuccess c], outcome := .ok () }
  | none =>
      match pipeline env pre with
      | .ok cfg =>
          { actions := [.configRequest, .configSuccess cfg, .authUser], outcome := .ok () }
      | .error e =>
          { actions := [.configRequest, .configFailure e], outcome := .error e }

/-- Modelled from the spec: the configuration slot of the store (the config
reducer lives in `Reducers/config`, not under `src/`) — the stored document
is replaced only when a `CONFIG_SUCCESS` (or `CONFIG_MERGE`) action arrives;
every other action leaves the prior document intact. -/
def configSlot (s : Option JVal) : Action → Option JVal
  | .configSuccess c => some c
  | .configMerge c => some c
  | _ => s

/-! ## Lookup lemmas -/

theorem objGet_objSet (k : String) (v : JVal) (k' : String) :
    ∀ kvs, objGet (objSet kvs k v) k' = if k = k' then some v else objGet kvs k'
  | [] => by by_cases h : k = k' <;> simp [objSet, objGet, h]
  | (k'', v'') :: rest => by
      by_cases h1 : k'' = k
      · subst h1
        by_cases h2 : k'' = k' <;> simp [objSet, objGet, h2]
      · by_cases h2 : k'' = k'
        · subst h2
          have h3 : ¬(k = k'') := fun hh => h1 hh.symm
          simp [objSet, objGet, h1, h3]
        · simp [objSet, objGet, h1, h2, objGet_objSet k v k' rest]

theorem objGet_objSet_self (kvs : List (String × JVal)) (k : String) (v : JVal) :
    objGet (objSet kvs k v) k = some v := by
  simp [objGet_objSet]

theorem objGet_objSet_ne (kvs : List (String × JVal)) (k : String) (v : JVal)
    (k' : String) (h : k ≠ k') : objGet (objSet kvs k v) k' = objGet kvs k' := by
  simp [objGet_objSet, h]

theorem objGet_objDelete_self (k : String) :
    ∀ kvs, objGet (objDelete kvs k) k = none
  | [] => by simp [objDelete, objGet]
  | (k'', v'') :: rest => by
      by_cases h : k'' = k
      · simpa [objDelete, h] using objGet_objDelete_self k rest
      · simpa [objDelete, objGet, h] using objGet_objDelete_self k rest

theorem objGet_objDelete_ne (k k' : String) (h : k' ≠ k) :
    ∀ kvs, objGet (objDelete kvs k) k' = objGet kvs k'
  | [] => by simp [objDelete]
  | (k'', v'') :: rest => by
      by_cases h1 : k'' = k
      · have h2 : ¬(k'' = k') := fun hh => h (hh ▸ h1)
        have h3 : ¬(k = k') := fun hh => h hh.symm
        simpa [objDelete, objGet, h1, h2, h3] using objGet_objDelete_ne k k' h rest
      · by_cases h2 : k'' = k'
        · subst h2
          simp [objDelete, objGet, h1, h]
        · simpa [objDelete, objGet, h1, h2] using objGet_objDelete_ne k k' h rest

theorem objGet_eq_none_of_not_mem (k : String) :
    ∀ l : List (String × JVal), k ∉ l.map Prod.fst → objGet l k = none
  | [], _ => rfl
  | (k'', v'') :: rest, h => by
      simp only [List.map_cons, List.mem_cons] at h
      push_neg at h
      have h1 : ¬(k'' = k) := fun hh => h.1 hh.symm
      simp [objGet, h1, objGet_eq_none_of_not_mem k rest h.2]

/-! ## Deep-merge characterization -/

theorem mergeKey_lookup (k : String) (v : JVal) (k' : String) :
    ∀ a, objGet (mergeKey a k v) k' =
      if k' = k then some ((objGet a k).elim v (fun v' => mergeDeep v' v))
      else objGet a k'
  | [] => by
      by_cases h : k' = k
      · subst h; simp [mergeKey, objGet]
      · have h2 : ¬(k = k') := fun hh => h hh.symm
        simp [mergeKey, objGet, h, h2]
  | (k'', v'') :: restA => by
      by_cases h1 : k'' = k
      · subst h1
        by_cases h2 : k' = k''
        · subst h2; simp [mergeKey, objGet]
        · have h3 : ¬(k'' = k') := fun hh => h2 hh.symm
          simp [mergeKey, objGet, h2, h3]
      · by_cases h2 : k' = k''
        · subst h2
          have h3 : ¬(k' = k) := fun hh => h1 (hh ▸ rfl)
          simp [mergeKey, objGet, h1, h3]
        · have h4 : ¬(k'' = k') := fun hh => h2 hh.symm
          simp [mergeKey, objGet, h1, h4, mergeKey_lookup k v k' restA]

theorem mergeOver_lookup (k : String) :
    ∀ (b a : List (String × JVal)), (b.map Prod.fst).Nodup →
      objGet (mergeOver a b) k =
        match objGet b k with
        | some vb => some ((objGet a k).elim vb (fun va => mergeDeep va vb))
        | none => objGet a k
  | [], a, _ => by simp [mergeOver, objGet]
  | (kb, vb) :: rest, a, hnd => by
      simp only [List.map_cons, List.nodup_cons] at hnd
      have hrest := mergeOver_lookup k rest (mergeKey a kb vb) hnd.2
      by_cases h : k = kb
      · subst h
        have hnone : objGet rest k = none :=
          objGet_eq_none_of_not_mem k rest hnd.1
        simp only [mergeOver, hrest, hnone, objGet, if_pos rfl]
        simp [mergeKey_lookup]
      · have h2 : ¬(kb = k) := fun hh => h hh.symm
        simp only [mergeOver, hrest, objGet, if_neg h2]
        rw [mergeKey_lookup]
        simp [if_neg h]

/-! ## Helper lemmas for traversals and strings -/

theorem mapOption_forall2 (f : α → Option β) :
    ∀ l l', mapOption f l = some l' → List.Forall₂ (fun a b => f a = some b) l l'
  | [], l', h => by
      simp only [mapOption] at h
      cases h
      exact .nil
  | a :: rest, l', h => by
      simp only [mapOption] at h
      cases hfa : f a with
      | none => rw [hfa] at h; simp at h
      | some b =>
          rw [hfa] at h
          cases hrest : mapOption f rest with
          | none => rw [hrest] at h; simp at h
          | some bs =>
              rw [hrest] at h
              simp at h
              subst h
              exact .cons hfa (mapOption_forall2 f rest bs hrest)

theorem foldl_append_map (g : α → β) :
    ∀ (l : List α) (acc : List β),
      l.foldl (fun acc item => acc ++ [g item]) acc = acc ++ l.map g
  | [], acc => by simp
  | a :: rest, acc => by simp [foldl_append_map g rest]

/-- `addLanguageFields` maps `expandField` over the field list: each field is
replaced in place by exactly one output field. -/
theorem addLanguageFields_eq_map (fields : List JVal) (langs : List String)
    (identifier : Option String) :
    addLanguageFields fields langs identifier = fields.map (expandField langs identifier) := by
  simpa using foldl_append_map (expandField langs identifier) fields []

theorem dropSlashes_eq_self (l : List Char) (h : l.head? ≠ some '/') :
    l.dropWhile (fun c => c == '/') = l := by
  cases l with
  | nil => rfl
  | cons c cs =>
      have hc : ¬(c = '/') := by simpa using h
      simp [List.dropWhile_cons, hc]

theorem trimSlashes_eq_self (s : String) (h : s.data.head? ≠ some '/') :
    trimSlashes s = s := by
  unfold trimSlashes
  rw [dropSlashes_eq_self s.data h]

theorem trimSlashes_slash (r : String) (h : r.data.head? ≠ some '/') :
    trimSlashes ("/" ++ r) = r := by
  have happ : ("/" ++ r : String) = ⟨'/' :: r.data⟩ := by cases r; rfl
  rw [happ]
  unfold trimSlashes
  simp only [List.dropWhile_cons]
  norm_num
  rw [dropSlashes_eq_self r.data h]

/-! ## Environment-overlay hoisting -/

theorem hoist_lookup (e : String) (ov : List (String × JVal)) :
    ∀ (ks : List String) (c : List (String × JVal)), objGet c e = some (.obj ov) →
      e ∉ ks → ∀ k',
      objGet (hoistKeys e ks c) k' =
        if k' ∈ ks then some ((objGet ov k').getD .null) else objGet c k'
  | [], c, _, _, k' => by simp [hoistKeys]
  | kk :: rest, c, hc, he, k' => by
      have hne : kk ≠ e := fun hh => he (hh ▸ List.mem_cons_self kk rest)
      have herest : e ∉ rest := fun hh => he (List.mem_cons_of_mem kk hh)
      have hstep : hoistKeys e (kk :: rest) c =
          hoistKeys e rest (objSet c kk ((objGet ov kk).getD .null)) := by
        simp [hoistKeys, hc, JVal.get]
      have hc' : objGet (objSet c kk ((objGet ov kk).getD .null)) e = objGet c e :=
        objGet_objSet_ne c kk _ e hne
      rw [hstep, hoist_lookup e ov rest _ (hc' ▸ hc) herest k']
      by_cases h1 : k' ∈ rest
      · simp [h1]
      · by_cases h2 : k' = kk
        · subst h2
          simp [h1, objGet_objSet_self]
        · have h3 : kk ≠ k' := fun hh => h2 hh.symm
          simp [h1, h2, objGet_objSet_ne c kk _ k' h3]

/-! ## `applyDefaults` step lemmas -/

theorem stepDisplayUrl_get_ne (kvs : List (String × JVal)) (k : String)
    (h : k ≠ "display_url") : objGet (stepDisplayUrl kvs) k = objGet kvs k := by
  unfold stepDisplayUrl
  split
  · exact objGet_objSet_ne kvs "display_url" _ k (Ne.symm h)
  · rfl

theorem stepPublicFolder_get_ne (kvs : List (String × JVal)) (k : String)
    (h : k ≠ "public_folder") : objGet (stepPublicFolder kvs) k = objGet kvs k := by
  unfold stepPublicFolder
  split
  · rfl
  · exact objGet_objSet_ne kvs "public_folder" _ k (Ne.symm h)

theorem stepPublicFolder_get_pf (kvs : List (String × JVal)) :
    objGet (stepPublicFolder kvs) "public_folder" =
      if truthy (objGet kvs "public_folder") then objGet kvs "public_folder"
      else some (.str ("/" ++ trimSlashes (jsToStr (objGet kvs "media_folder")))) := by
  unfold stepPublicFolder
  split
  · next hg => simp [hg]
  · next hg =>
      simp only [Bool.not_eq_true] at hg
      simp [hg, objGet_objSet_self]

theorem setIn2_get_ne (kvs : List (String × JVal)) (k1 k2 : String) (v : JVal)
    (kvs' : List (String × JVal)) (hs : setIn2 kvs k1 k2 v = some kvs')
    (k : String) (h : k ≠ k1) : objGet kvs' k = objGet kvs k := by
  unfold setIn2 at hs
  split at hs
  · cases hs
    exact objGet_objSet_ne kvs k1 _ k (Ne.symm h)
  · cases hs
    exact objGet_objSet_ne kvs k1 _ k (Ne.symm h)
  · cases hs

theorem setIn2_getIn2 (kvs : List (String × JVal)) (k1 k2 : String) (v : JVal)
    (kvs' : List (String × JVal)) (hs : setIn2 kvs k1 k2 v = some kvs') (k2' : String) :
    getIn2 kvs' k1 k2' = if k2 = k2' then some v else getIn2 kvs k1 k2' := by
  unfold setIn2 at hs
  split at hs
  · next o ho =>
      cases hs
      have hl : getIn2 (objSet kvs k1 (.obj (objSet o k2 v))) k1 k2'
          = objGet (objSet o k2 v) k2' := by
        unfold getIn2; rw [objGet_objSet_self]
      have hr : getIn2 kvs k1 k2' = objGet o k2' := by
        unfold getIn2; rw [ho]
      rw [hl, objGet_objSet, hr]
  · next ho =>
      cases hs
      have hl : getIn2 (objSet kvs k1 (.obj [(k2, v)])) k1 k2' = objGet [(k2, v)] k2' := by
        unfold getIn2; rw [objGet_objSet_self]
      have hr : getIn2 kvs k1 k2' = none := by
        unfold getIn2; rw [ho]
      rw [hl, hr]
      by_cases h : k2 = k2' <;> simp [objGet, h]
  · cases hs

theorem slugStage_get_ne (g : Bool) (cur : List (String × JVal)) (key : String)
    (val : JVal) (next : List (String × JVal)) (hs : slugStage g cur key val = some next)
    (k : String) (h : k ≠ "slug") : objGet next k = objGet cur k := by
  unfold slugStage at hs
  split at hs
  · cases hs; rfl
  · exact setIn2_get_ne cur "slug" key val next hs k h

theorem slugStage_getIn2_ne (g : Bool) (cur : List (String × JVal)) (key : String)
    (val : JVal) (next : List (String × JVal)) (hs : slugStage g cur key val = some next)
    (k2' : String) (h : key ≠ k2') : getIn2 next "slug" k2' = getIn2 cur "slug" k2' := by
  unfold slugStage at hs
  split at hs
  · cases hs; rfl
  · rw [setIn2_getIn2 cur "slug" key val next hs k2', if_neg h]

theorem slugStage_getIn2_self (cur : List (String × JVal)) (key : String)
    (val : JVal) (next : List (String × JVal))
    (hs : slugStage (truthy (getIn2 cur "slug" key)) cur key val = some next) :
    getIn2 next "slug" key =
      if truthy (getIn2 cur "slug" key) then getIn2 cur "slug" key else some val := by
  unfold slugStage at hs
  split at hs
  · next hg => cases hs; simp [hg]
  · next hg =>
      simp only [Bool.not_eq_true] at hg
      rw [setIn2_getIn2 cur "slug" key val next hs key, if_pos rfl, if_neg]
      simp [hg]

theorem stepSlug_parts (kvs kvs' : List (String × JVal)) (hs : stepSlug kvs = some kvs') :
    ∃ ka kb,
      slugStage (truthy (getIn2 kvs "slug" "encoding")) kvs "encoding" (.str "unicode")
        = some ka ∧
      slugStage (truthy (getIn2 ka "slug" "clean_accents")) ka "clean_accents" (.bool false)
        = some kb ∧
      slugStage (truthy (getIn2 kb "slug" "sanitize_replacement")) kb "sanitize_replacement"
        (.str "-") = some kvs' := by
  unfold stepSlug at hs
  cases h1 : slugStage (truthy (getIn2 kvs "slug" "encoding")) kvs "encoding"
      (.str "unicode") with
  | none => rw [h1] at hs; simp at hs
  | some ka =>
      rw [h1] at hs
      simp only [Option.some_bind] at hs
      cases h2 : slugStage (truthy (getIn2 ka "slug" "clean_accents")) ka "clean_accents"
          (.bool false) with
      | none => rw [h2] at hs; simp at hs
      | some kb =>
          rw [h2] at hs
          simp only [Option.some_bind] at hs
          exact ⟨ka, kb, rfl, h2, hs⟩

theorem stepSlug_get_ne (kvs kvs' : List (String × JVal)) (hs : stepSlug kvs = some kvs')
    (k : String) (h : k ≠ "slug") : objGet kvs' k = objGet kvs k := by
  obtain ⟨ka, kb, h1, h2, h3⟩ := stepSlug_parts kvs kvs' hs
  rw [slugStage_get_ne _ _ _ _ _ h3 k h, slugStage_get_ne _ _ _ _ _ h2 k h,
    slugStage_get_ne _ _ _ _ _ h1 k h]

theorem stepCollections_parts (kvs kvs' : List (String × JVal))
    (hs : stepCollections kvs = some kvs') :
    ∃ cols cols', objGet kvs "collections" = some (.arr cols) ∧
      mapOption (applyCollection (objGet kvs "languages")) cols = some cols' ∧
      kvs' = objSet kvs "collections" (.arr cols') := by
  unfold stepCollections at hs
  split at hs
  · next cols hcols =>
      cases hmap : mapOption (applyCollection (objGet kvs "languages")) cols with
      | none => rw [hmap] at hs; simp at hs
      | some cols' =>
          rw [hmap] at hs
          simp only [Option.map_some'] at hs
          cases hs
          exact ⟨cols, cols', hcols, hmap, rfl⟩
  · cases hs

theorem stepCollections_get_ne (kvs kvs' : List (String × JVal))
    (hs : stepCollections kvs = some kvs') (k : String) (h : k ≠ "collections") :
    objGet kvs' k = objGet kvs k := by
  obtain ⟨cols, cols', _, _, hset⟩ := stepCollections_parts kvs kvs' hs
  rw [hset]
  exact objGet_objSet_ne kvs "collections" _ k (Ne.symm h)

/-- Unfold `applyDefaults` on an object document: the defaults merge reduces
to `mergeOver`. -/
theorem applyDefaults_obj (kvs : List (String × JVal)) :
    applyDefaults (.obj kvs) =
      ((stepSlug (stepPublicFolder (stepDisplayUrl (mergeOver defaults kvs)))).bind
        stepCollections).map JVal.obj := by
  unfold applyDefaults
  rw [show mergeDeep (.obj defaults) (.obj kvs) = .obj (mergeOver defaults kvs) by
    simp [mergeDeep]]

theorem applyDefaults_parts (kvs : List (String × JVal)) (out : JVal)
    (h : applyDefaults (.obj kvs) = some out) :
    ∃ kS kC, stepSlug (stepPublicFolder (stepDisplayUrl (mergeOver defaults kvs)))
        = some kS ∧
      stepCollections kS = some kC ∧ out = .obj kC := by
  rw [applyDefaults_obj] at h
  cases hS : stepSlug (stepPublicFolder (stepDisplayUrl (mergeOver defaults kvs))) with
  | none => rw [hS] at h; simp at h
  | some kS =>
      rw [hS] at h
      simp only [Option.some_bind] at h
      cases hC : stepCollections kS with
      | none => rw [hC] at h; simp at h
      | some kC =>
          rw [hC] at h
          simp only [Option.map_some'] at h
          cases h
          exact ⟨kS, kC, rfl, hC, rfl⟩

/-- Keys other than `publish_mode` read the same through the defaults
merge. -/
theorem mergeOver_defaults_get (kvs : List (String × JVal)) (k : String)
    (hnd : (kvs.map Prod.fst).Nodup) (h : k ≠ "publish_mode") :
    objGet (mergeOver defaults kvs) k = objGet kvs k := by
  rw [mergeOver_lookup k kvs defaults hnd]
  have h' : ¬("publish_mode" = k) := fun hh => h hh.symm
  cases hk : objGet kvs k with
  | none => simp [defaults, objGet, h']
  | some vb => simp [defaults, objGet, h']

theorem jGetIn2_obj (kvs : List (String × JVal)) (k1 k2 : String) :
    jGetIn2 (.obj kvs) k1 k2 = getIn2 kvs k1 k2 := by
  show (match objGet kvs k1 with
        | some w => w.get k2
        | none => none) = getIn2 kvs k1 k2
  unfold getIn2
  cases objGet kvs k1 with
  | none => rfl
  | some w => cases w <;> rfl

theorem mem_of_objGet_some (k : String) (v : JVal) :
    ∀ l : List (String × JVal), objGet l k = some v → k ∈ l.map Prod.fst
  | [], h => by simp [objGet] at h
  | (k'', v'') :: rest, h => by
      by_cases h1 : k'' = k
      · simp [h1]
      · simp only [objGet, if_neg h1] at h
        simp [mem_of_objGet_some k v rest h]

/-- C5: `addLanguageFields` maps every field to exactly one output field
(so a translated field is replaced in place, never duplicated); a field
marked `translate` whose name is neither the identifier nor `body` becomes
the object-typed wrapper; other fields pass through unchanged; the wrapper
keeps the field's name, drops the translate marker, has widget `object` and
one sub-field per language; each sub-field is a copy of the original field
minus the translate marker, named with the language code and labeled with
the uppercased language code. -/
theorem C5_language_fields (fields : List JVal) (langs : List String)
    (identifier : Option String) :
    addLanguageFields fields langs identifier
      = fields.map (expandField langs identifier) ∧
    (∀ o s, truthy (objGet o "translate") = true → objGet o "name" = some (.str s) →
      identifier ≠ some s → s ≠ "body" →
      expandField langs identifier (.obj o) = translatedWrapper o langs) ∧
    (∀ o, truthy (objGet o "translate") = false →
      expandField langs identifier (.obj o) = .obj o) ∧
    (∀ o s, objGet o "name" = some (.str s) → identifier = some s ∨ s = "body" →
      expandField langs identifier (.obj o) = .obj o) ∧
    (∀ o, JVal.get (translatedWrapper o langs) "widget" = some (.str "object") ∧
      JVal.get (translatedWrapper o langs) "translate" = none ∧
      JVal.get (translatedWrapper o langs) "fields"
        = some (.arr (langs.map (translatedSubfield o))) ∧
      (∀ nv, objGet o "name" = some nv →
        JVal.get (translatedWrapper o langs) "name" = some nv)) ∧
    (∀ o lang, JVal.get (translatedSubfield o lang) "name" = some (.str lang) ∧
      JVal.get (translatedSubfield o lang) "label" = some (.str (jsToUpper lang)) ∧
      JVal.get (translatedSubfield o lang) "translate" = none ∧
      (∀ k, k ≠ "translate" → k ≠ "label" → k ≠ "name" →
        JVal.get (translatedSubfield o lang) k = objGet o k)) := by
  refine ⟨addLanguageFields_eq_map fields langs identifier, ?_, ?_, ?_, ?_, ?_⟩
  · intro o s ht hn hid hbody
    have h1 : nameIs (objGet o "name") identifier = false := by
      rw [hn]
      cases identifier with
      | none => rfl
      | some t =>
          simp only [nameIs]
          simp only [decide_eq_false_iff_not]
          intro hh
          exact hid (by rw [hh])
    have h2 : nameIs (objGet o "name") (some "body") = false := by
      rw [hn]
      simp only [nameIs]
      simp only [decide_eq_false_iff_not]
      exact hbody
    simp [expandField, ht, h1, h2]
  · intro o ht
    simp [expandField, ht]
  · intro o s hn hcase
    have h1 : (truthy (objGet o "translate")
        && !nameIs (objGet o "name") identifier
        && !nameIs (objGet o "name") (some "body")) = false := by
      rcases hcase with h | h
      · have : nameIs (objGet o "name") identifier = true := by
          rw [hn, h]; simp [nameIs]
        simp [this]
      · have : nameIs (objGet o "name") (some "body") = true := by
          rw [hn, h]; simp [nameIs]
        simp [this]
    simp [expandField, h1]
  · intro o
    refine ⟨?_, ?_, ?_, ?_⟩
    · show objGet (objSet (objSet (objDelete o "translate") "widget" (.str "object"))
        "fields" (.arr (langs.map (translatedSubfield o)))) "widget" = some (.str "object")
      rw [objGet_objSet_ne _ _ _ _ (by decide), objGet_objSet_self]
    · show objGet (objSet (objSet (objDelete o "translate") "widget" (.str "object"))
        "fields" (.arr (langs.map (translatedSubfield o)))) "translate" = none
      rw [objGet_objSet_ne _ _ _ _ (by decide), objGet_objSet_ne _ _ _ _ (by decide),
        objGet_objDelete_self]
    · show objGet (objSet (objSet (objDelete o "translate") "widget" (.str "object"))
        "fields" (.arr (langs.map (translatedSubfield o)))) "fields"
        = some (.arr (langs.map (translatedSubfield o)))
      rw [objGet_objSet_self]
    · intro nv hnv
      show objGet (objSet (objSet (objDelete o "translate") "widget" (.str "object"))
        "fields" (.arr (langs.map (translatedSubfield o)))) "name" = some nv
      rw [objGet_objSet_ne _ _ _ _ (by decide), objGet_objSet_ne _ _ _ _ (by decide),
        objGet_objDelete_ne _ _ (by decide), hnv]
  · intro o lang
    refine ⟨?_, ?_, ?_, ?_⟩
    · show objGet (objSet (objSet (objDelete o "translate") "label"
        (.str (jsToUpper lang))) "name" (.str lang)) "name" = some (.str lang)
      rw [objGet_objSet_self]
    · show objGet (objSet (objSet (objDelete o "translate") "label"
        (.str (jsToUpper lang))) "name" (.str lang)) "label" = some (.str (jsToUpper lang))
      rw [objGet_objSet_ne _ _ _ _ (by decide), objGet_objSet_self]
    · show objGet (objSet (objSet (objDelete o "translate") "label"
        (.str (jsToUpper lang))) "name" (.str lang)) "translate" = none
      rw [objGet_objSet_ne _ _ _ _ (by decide), objGet_objSet_ne _ _ _ _ (by decide),
        objGet_objDelete_self]
    · intro k hk1 hk2 hk3
      show objGet (objSet (objSet (objDelete o "translate") "label"
        (.str (jsToUpper lang))) "name" (.str lang)) k = objGet o k
      rw [objGet_objSet_ne _ _ _ _ (Ne.symm hk3), objGet_objSet_ne _ _ _ _ (Ne.symm hk2),
        objGet_objDelete_ne _ _ hk1]

theorem C5_witness :
    addLanguageFields [.obj [("name", JVal.str "title"), ("translate", JVal.bool true)]]
        ["en", "fr"] (some "slug")
      = [.obj [("name", JVal.str "title"), ("widget", JVal.str "object"),
          ("fields", .arr [
            .obj [("name", JVal.str "en"), ("label", JVal.str "EN")],
            .obj [("name", JVal.str "fr"), ("label", JVal.str "FR")]])]] ∧
    expandField ["en", "fr"] (some "slug")
        (.obj [("name", JVal.str "title"), ("translate", JVal.bool true)])
      = translatedWrapper [("name", JVal.str "title"), ("translate", JVal.bool true)]
          ["en", "fr"] := by
  constructor
  · rw [(C5_language_fields [.obj [("name", JVal.str "title"),
      ("translate", JVal.bool true)]] ["en", "fr"] (some "slug")).1]
    rfl
  · exact (C5_language_fields [] ["en", "fr"] (some "slug")).2.1
      [("name", JVal.str "title"), ("translate", JVal.bool true)] "title" rfl rfl
      (by simp) (by decide)

/-- C6 (amended): on a well-formed document (unique keys), whenever
`applyDefaults` succeeds, the output `public_folder` is derived as
`'/' + trimStart(media_folder, '/')` when the input `public_folder` is
absent **or falsy** (the code tests truthiness, not presence), and an input
`public_folder` with a truthy value is kept unchanged. -/
theorem C6_public_folder (kvs : List (String × JVal)) (out : JVal) (mf : String)
    (hnd : (kvs.map Prod.fst).Nodup)
    (hd : applyDefaults (.obj kvs) = some out)
    (hmf : objGet kvs "media_folder" = some (.str mf)) :
    (truthy (objGet kvs "public_folder") = false →
      JVal.get out "public_folder" = some (.str ("/" ++ trimSlashes mf))) ∧
    (∀ pv, objGet kvs "public_folder" = some pv → truthy (some pv) = true →
      JVal.get out "public_folder" = some pv) := by
  obtain ⟨kS, kC, hS, hC, hout⟩ := applyDefaults_parts kvs out hd
  have hpm : ("public_folder" : String) ≠ "publish_mode" := by decide
  have hdm : ("public_folder" : String) ≠ "display_url" := by decide
  have hmm : ("media_folder" : String) ≠ "publish_mode" := by decide
  have hmd : ("media_folder" : String) ≠ "display_url" := by decide
  have hmp : ("media_folder" : String) ≠ "public_folder" := by decide
  have h0 : objGet (mergeOver defaults kvs) "public_folder" = objGet kvs "public_folder" :=
    mergeOver_defaults_get kvs "public_folder" hnd hpm
  have h1 : objGet (stepDisplayUrl (mergeOver defaults kvs)) "public_folder"
      = objGet kvs "public_folder" := by
    rw [stepDisplayUrl_get_ne _ _ hdm, h0]
  have hm0 : objGet (mergeOver defaults kvs) "media_folder" = some (.str mf) := by
    rw [mergeOver_defaults_get kvs "media_folder" hnd hmm, hmf]
  have hm1 : objGet (stepDisplayUrl (mergeOver defaults kvs)) "media_folder"
      = some (.str mf) := by
    rw [stepDisplayUrl_get_ne _ _ hmd, hm0]
  have h2 : objGet (stepPublicFolder (stepDisplayUrl (mergeOver defaults kvs)))
      "public_folder" =
      if truthy (objGet kvs "public_folder") then objGet kvs "public_folder"
      else some (.str ("/" ++ trimSlashes mf)) := by
    rw [stepPublicFolder_get_pf, h1, hm1]
    rfl
  have h3 : objGet kC "public_folder"
      = objGet (stepPublicFolder (stepDisplayUrl (mergeOver defaults kvs)))
        "public_folder" := by
    rw [stepCollections_get_ne kS kC hC _ (by decide),
      stepSlug_get_ne _ kS hS _ (by decide)]
  have hfin : JVal.get out "public_folder" =
      if truthy (objGet kvs "public_folder") then objGet kvs "public_folder"
      else some (.str ("/" ++ trimSlashes mf)) := by
    rw [hout]
    show objGet kC "public_folder" = _
    rw [h3, h2]
  constructor
  · intro hfalse
    rw [hfin, hfalse]
    simp
  · intro pv hpv htrue
    rw [hfin, hpv, htrue]
    simp

/-- C6 counterexample: a `public_folder` that is present but empty (`""`) is
falsy, so `applyDefaults` overwrites it with the derived default — refuting
"an existing public_folder is never overwritten". -/
theorem C6_counterexample :
    objGet [("media_folder", JVal.str "uploads"), ("public_folder", JVal.str ""),
        ("collections", JVal.arr [])] "public_folder" = some (.str "") ∧
    (applyDefaults (.obj [("media_folder", JVal.str "uploads"),
        ("public_folder", JVal.str ""), ("collections", JVal.arr [])])).bind
      (fun c => c.get "public_folder") = some (.str "/uploads") ∧
    (JVal.str "/uploads") ≠ (JVal.str "") := by
  refine ⟨rfl, ?_, by simp⟩
  have hm : mergeDeep (.obj defaults) (.obj [("media_folder", JVal.str "uploads"),
      ("public_folder", JVal.str ""), ("collections", JVal.arr [])])
      = .obj [("publish_mode", JVal.str "simple"), ("media_folder", JVal.str "uploads"),
        ("public_folder", JVal.str ""), ("collections", JVal.arr [])] := by
    simp [mergeDeep, mergeOver, mergeKey, defaults]
  unfold applyDefaults
  rw [hm]
  rfl

theorem C6_witness :
    truthy (objGet [("media_folder", JVal.str "uploads"), ("collections", JVal.arr [])]
      "public_folder") = false ∧
    JVal.get (JVal.obj [("publish_mode", JVal.str "simple"),
        ("media_folder", JVal.str "uploads"), ("collections", JVal.arr []),
        ("public_folder", JVal.str "/uploads"),
        ("slug", JVal.obj [("encoding", JVal.str "unicode"),
          ("clean_accents", JVal.bool false),
          ("sanitize_replacement", JVal.str "-")])]) "public_folder"
      = some (.str ("/" ++ trimSlashes "uploads")) := by
  constructor
  · rfl
  · refine (C6_public_folder [("media_folder", JVal.str "uploads"),
      ("collections", JVal.arr [])] _ "uploads" (by simp) ?_ rfl).1 rfl
    have hm : mergeDeep (.obj defaults)
        (.obj [("media_folder", JVal.str "uploads"), ("collections", JVal.arr [])])
        = .obj [("publish_mode", JVal.str "simple"), ("media_folder", JVal.str "uploads"),
          ("collections", JVal.arr [])] := by
      simp [mergeDeep, mergeOver, mergeKey, defaults]
    unfold applyDefaults
    rw [hm]
    rfl

/-- C9 (amended): whenever `applyDefaults` succeeds on a well-formed
document, each slug sub-key is filled with its default exactly when the
existing value is absent **or falsy** (the code tests `!map.getIn(...)`,
i.e. truthiness, not presence); a sub-key with a truthy value keeps it. -/
theorem C9_slug_defaults (kvs : List (String × JVal)) (out : JVal)
    (hnd : (kvs.map Prod.fst).Nodup)
    (hd : applyDefaults (.obj kvs) = some out) :
    (jGetIn2 out "slug" "encoding"
      = if truthy (getIn2 kvs "slug" "encoding") then getIn2 kvs "slug" "encoding"
        else some (.str "unicode")) ∧
    (jGetIn2 out "slug" "clean_accents"
      = if truthy (getIn2 kvs "slug" "clean_accents") then getIn2 kvs "slug" "clean_accents"
        else some (.bool false)) ∧
    (jGetIn2 out "slug" "sanitize_replacement"
      = if truthy (getIn2 kvs "slug" "sanitize_replacement")
        then getIn2 kvs "slug" "sanitize_replacement" else some (.str "-")) := by
  obtain ⟨kS, kC, hS, hC, hout⟩ := applyDefaults_parts kvs out hd
  have hslugobj : objGet (stepPublicFolder (stepDisplayUrl (mergeOver defaults kvs)))
      "slug" = objGet kvs "slug" := by
    rw [stepPublicFolder_get_ne _ _ (by decide), stepDisplayUrl_get_ne _ _ (by decide),
      mergeOver_defaults_get kvs "slug" hnd (by decide)]
  have hgm2 : ∀ k2, getIn2 (stepPublicFolder (stepDisplayUrl (mergeOver defaults kvs)))
      "slug" k2 = getIn2 kvs "slug" k2 := by
    intro k2
    unfold getIn2
    rw [hslugobj]
  obtain ⟨ka, kb, h1, h2, h3⟩ := stepSlug_parts _ kS hS
  have hgkC : ∀ k2, getIn2 kC "slug" k2 = getIn2 kS "slug" k2 := by
    intro k2
    unfold getIn2
    rw [stepCollections_get_ne kS kC hC "slug" (by decide)]
  have hjout : ∀ k2, jGetIn2 out "slug" k2 = getIn2 kS "slug" k2 := by
    intro k2
    rw [hout, jGetIn2_obj, hgkC]
  refine ⟨?_, ?_, ?_⟩
  · have e1 := slugStage_getIn2_self _ "encoding" (.str "unicode") ka h1
    have e2 := slugStage_getIn2_ne _ ka "clean_accents" (.bool false) kb h2
      "encoding" (by decide)
    have e3 := slugStage_getIn2_ne _ kb "sanitize_replacement" (.str "-") kS h3
      "encoding" (by decide)
    rw [hjout, e3, e2, e1, hgm2]
  · have c1 := slugStage_getIn2_ne _ _ "encoding" (.str "unicode") ka h1
      "clean_accents" (by decide)
    have c2 := slugStage_getIn2_self ka "clean_accents" (.bool false) kb h2
    have c3 := slugStage_getIn2_ne _ kb "sanitize_replacement" (.str "-") kS h3
      "clean_accents" (by decide)
    rw [hjout, c3, c2, c1, hgm2]
  · have s1 := slugStage_getIn2_ne _ _ "encoding" (.str "unicode") ka h1
      "sanitize_replacement" (by decide)
    have s2 := slugStage_getIn2_ne _ ka "clean_accents" (.bool false) kb h2
      "sanitize_replacement" (by decide)
    have s3 := slugStage_getIn2_self kb "sanitize_replacement" (.str "-") kS h3
    rw [hjout, s3, s2, s1, hgm2]

/-- C9 counterexample: `slug.encoding` present as the empty string is falsy,
so it is overwritten with `unicode` — refuting "a slug sub-key already
present in the input keeps its value". -/
theorem C9_counterexample :
    getIn2 [("slug", JVal.obj [("encoding", JVal.str "")]), ("collections", JVal.arr [])]
      "slug" "encoding" = some (.str "") ∧
    ((applyDefaults (.obj [("slug", JVal.obj [("encoding", JVal.str "")]),
        ("collections", JVal.arr [])])).bind (fun c => c.get "slug")).bind
      (fun s => s.get "encoding") = some (.str "unicode") ∧
    (JVal.str "unicode") ≠ (JVal.str "") := by
  refine ⟨rfl, ?_, by simp⟩
  have hm : mergeDeep (.obj defaults) (.obj [("slug", JVal.obj [("encoding", JVal.str "")]),
      ("collections", JVal.arr [])])
      = .obj [("publish_mode", JVal.str "simple"),
        ("slug", JVal.obj [("encoding", JVal.str "")]), ("collections", JVal.arr [])] := by
    simp [mergeDeep, mergeOver, mergeKey, defaults]
  unfold applyDefaults
  rw [hm]
  rfl

theorem C9_witness :
    truthy (getIn2 [("slug", JVal.obj [("encoding", JVal.str "ascii")]),
      ("collections", JVal.arr [])] "slug" "encoding") = true ∧
    jGetIn2 (JVal.obj [("publish_mode", JVal.str "simple"),
        ("slug", JVal.obj [("encoding", JVal.str "ascii"), ("clean_accents", JVal.bool false),
          ("sanitize_replacement", JVal.str "-")]),
        ("collections", JVal.arr []), ("public_folder", JVal.str "/")])
      "slug" "encoding" = some (.str "ascii") ∧
    jGetIn2 (JVal.obj [("publish_mode", JVal.str "simple"),
        ("slug", JVal.obj [("encoding", JVal.str "ascii"), ("clean_accents", JVal.bool false),
          ("sanitize_replacement", JVal.str "-")]),
        ("collections", JVal.arr []), ("public_folder", JVal.str "/")])
      "slug" "clean_accents" = some (.bool false) := by
  have hm : mergeDeep (.obj defaults)
      (.obj [("slug", JVal.obj [("encoding", JVal.str "ascii")]),
        ("collections", JVal.arr [])])
      = .obj [("publish_mode", JVal.str "simple"),
        ("slug", JVal.obj [("encoding", JVal.str "ascii")]),
        ("collections", JVal.arr [])] := by
    simp [mergeDeep, mergeOver, mergeKey, defaults]
  have hd : applyDefaults (.obj [("slug", JVal.obj [("encoding", JVal.str "ascii")]),
      ("collections", JVal.arr [])])
      = some (JVal.obj [("publish_mode", JVal.str "simple"),
        ("slug", JVal.obj [("encoding", JVal.str "ascii"), ("clean_accents", JVal.bool false),
          ("sanitize_replacement", JVal.str "-")]),
        ("collections", JVal.arr []), ("public_folder", JVal.str "/")]) := by
    unfold applyDefaults
    rw [hm]
    rfl
  have hall := C9_slug_defaults [("slug", JVal.obj [("encoding", JVal.str "ascii")]),
    ("collections", JVal.arr [])] _ (by simp) hd
  refine ⟨rfl, ?_, ?_⟩
  · rw [hall.1]
    rfl
  · rw [hall.2.1]
    rfl

theorem applyCollection_folder (langs : Option JVal) (c : List (String × JVal))
    (f : String) (col' : JVal) (h : applyCollection langs (.obj c) = some col')
    (hf : objGet c "folder" = some (.str f)) (ht : truthy (some (.str f)) = true) :
    JVal.get col' "folder" = some (.str (trimSlashes f)) := by
  unfold applyCollection at h
  simp only [hf, ht, if_true] at h
  rw [Option.bind_eq_some] at h
  obtain ⟨c2, _, hcol⟩ := h
  cases hcol
  exact objGet_objSet_self c2 "folder" (.str (trimSlashes f))

theorem filesBranch_spec (c : List (String × JVal)) (fs : List JVal) (col' : JVal)
    (h : filesBranch c = some col') (hfs : objGet c "files" = some (.arr fs)) :
    ∃ fs', JVal.get col' "files" = some (.arr fs') ∧
      List.Forall₂ (fun fo fo' => trimFile fo = some fo') fs fs' := by
  unfold filesBranch at h
  simp only [hfs, truthy, if_true] at h
  cases hmap : mapOption trimFile fs with
  | none => rw [hmap] at h; simp at h
  | some fs' =>
      rw [hmap] at h
      simp only [Option.map_some'] at h
      cases h
      refine ⟨fs', ?_, mapOption_forall2 _ fs fs' hmap⟩
      exact objGet_objSet_self c "files" (.arr fs')

theorem applyCollection_files (langs : Option JVal) (c : List (String × JVal))
    (fs : List JVal) (col' : JVal) (h : applyCollection langs (.obj c) = some col')
    (hfolder : truthy (objGet c "folder") = false)
    (hfs : objGet c "files" = some (.arr fs)) :
    ∃ fs', JVal.get col' "files" = some (.arr fs') ∧
      List.Forall₂ (fun fo fo' => trimFile fo = some fo') fs fs' := by
  unfold applyCollection at h
  cases hf : objGet c "folder" with
  | some folderV =>
      rw [hf] at hfolder
      simp only [hf, hfolder] at h
      exact filesBranch_spec c fs col' h hfs
  | none =>
      simp only [hf] at h
      exact filesBranch_spec c fs col' h hfs

theorem trimFile_get (fo fo' : JVal) (o : List (String × JVal)) (p : String)
    (h : trimFile fo = some fo') (hfo : fo = .obj o)
    (hp : objGet o "file" = some (.str p)) :
    JVal.get fo' "file" = some (.str (trimSlashes p)) := by
  subst hfo
  unfold trimFile at h
  simp only [hp] at h
  cases h
  exact objGet_objSet_self o "file" (.str (trimSlashes p))

/-- C7: `applyDefaults` strips the leading slashes from the `folder` of
every folder-based collection and from each `file` path of every files-based
collection; `trimStart(path, '/')` removes a leading slash and leaves a path
without one unchanged. -/
theorem C7_path_slashes (kvs : List (String × JVal)) (out : JVal)
    (cols : List JVal) (hnd : (kvs.map Prod.fst).Nodup)
    (hd : applyDefaults (.obj kvs) = some out)
    (hc : objGet kvs "collections" = some (.arr cols)) :
    (∃ cols', JVal.get out "collections" = some (.arr cols') ∧
      List.Forall₂ (fun col col' =>
        (∀ c f, col = JVal.obj c → objGet c "folder" = some (.str f) →
          truthy (some (.str f)) = true →
          JVal.get col' "folder" = some (.str (trimSlashes f))) ∧
        (∀ c fs, col = JVal.obj c → truthy (objGet c "folder") = false →
          objGet c "files" = some (.arr fs) →
          ∃ fs', JVal.get col' "files" = some (.arr fs') ∧
            List.Forall₂ (fun fo fo' => ∀ o p, fo = JVal.obj o →
              objGet o "file" = some (.str p) →
              JVal.get fo' "file" = some (.str (trimSlashes p))) fs fs')) cols cols') ∧
    (∀ r : String, r.data.head? ≠ some '/' → trimSlashes ("/" ++ r) = r) ∧
    (∀ s : String, s.data.head? ≠ some '/' → trimSlashes s = s) := by
  refine ⟨?_, trimSlashes_slash, trimSlashes_eq_self⟩
  obtain ⟨kS, kC, hS, hC, hout⟩ := applyDefaults_parts kvs out hd
  have hcolsS : objGet kS "collections" = some (.arr cols) := by
    rw [stepSlug_get_ne _ kS hS _ (by decide), stepPublicFolder_get_ne _ _ (by decide),
      stepDisplayUrl_get_ne _ _ (by decide),
      mergeOver_defaults_get kvs "collections" hnd (by decide), hc]
  obtain ⟨cols₀, cols', hcols₀, hmap, hset⟩ := stepCollections_parts kS kC hC
  have heq : cols₀ = cols := by
    rw [hcolsS] at hcols₀
    exact (JVal.arr.inj (Option.some.inj hcols₀)).symm
  subst heq
  refine ⟨cols', ?_, ?_⟩
  · rw [hout, hset]
    exact objGet_objSet_self kS "collections" (.arr cols')
  · refine (mapOption_forall2 _ cols₀ cols' hmap).imp ?_
    intro col col' hac
    constructor
    · intro c f hcol hf ht
      subst hcol
      exact applyCollection_folder _ c f col' hac hf ht
    · intro c fs hcol hfolder hfs
      subst hcol
      obtain ⟨fs', hget, hall⟩ := applyCollection_files _ c fs col' hac hfolder hfs
      refine ⟨fs', hget, hall.imp ?_⟩
      intro fo fo' htf o p hfo hp
      exact trimFile_get fo fo' o p htf hfo hp

theorem C7_witness :
    (∃ cols', JVal.get (JVal.obj [("publish_mode", JVal.str "simple"),
        ("collections", JVal.arr [JVal.obj [("folder", JVal.str "posts")],
          JVal.obj [("files", JVal.arr [JVal.obj [("file", JVal.str "a.md")]])]]),
        ("public_folder", JVal.str "/"),
        ("slug", JVal.obj [("encoding", JVal.str "unicode"),
          ("clean_accents", JVal.bool false),
          ("sanitize_replacement", JVal.str "-")])]) "collections"
        = some (.arr cols') ∧
      List.Forall₂ (fun col col' =>
        (∀ c f, col = JVal.obj c → objGet c "folder" = some (.str f) →
          truthy (some (.str f)) = true →
          JVal.get col' "folder" = some (.str (trimSlashes f))) ∧
        (∀ c fs, col = JVal.obj c → truthy (objGet c "folder") = false →
          objGet c "files" = some (.arr fs) →
          ∃ fs', JVal.get col' "files" = some (.arr fs') ∧
            List.Forall₂ (fun fo fo' => ∀ o p, fo = JVal.obj o →
              objGet o "file" = some (.str p) →
              JVal.get fo' "file" = some (.str (trimSlashes p))) fs fs'))
        [JVal.obj [("folder", JVal.str "/posts")],
          JVal.obj [("files", JVal.arr [JVal.obj [("file", JVal.str "/a.md")]])]] cols') ∧
    (∀ r : String, r.data.head? ≠ some '/' → trimSlashes ("/" ++ r) = r) ∧
    (∀ s : String, s.data.head? ≠ some '/' → trimSlashes s = s) := by
  refine C7_path_slashes [("collections", JVal.arr [JVal.obj [("folder", JVal.str "/posts")],
    JVal.obj [("files", JVal.arr [JVal.obj [("file", JVal.str "/a.md")]])]])]
    _ _ (by simp) ?_ rfl
  have hm : mergeDeep (.obj defaults)
      (.obj [("collections", JVal.arr [JVal.obj [("folder", JVal.str "/posts")],
        JVal.obj [("files", JVal.arr [JVal.obj [("file", JVal.str "/a.md")]])]])])
      = .obj [("publish_mode", JVal.str "simple"),
        ("collections", JVal.arr [JVal.obj [("folder", JVal.str "/posts")],
          JVal.obj [("files", JVal.arr [JVal.obj [("file", JVal.str "/a.md")]])]])] := by
    simp [mergeDeep, mergeOver, mergeKey, defaults]
  unfold applyDefaults
  rw [hm]
  rfl

/-- C1 (amended): a present (truthy) `window.CMS_CONFIG` short-circuits
`loadConfig` entirely: the returned thunk dispatches only `CONFIG_SUCCESS`
with the injected object — no network fetch, no merge, **no validation**,
and no default application happen, whatever the environment (in particular
whatever `validateConfig` would say and whatever the fetch would return). -/
theorem C1_injected_config (env : LoadEnv) (pre : Option JVal) (c : JVal)
    (h : env.cmsConfig = some c) :
    loadConfig env pre = ⟨[.configSuccess c], .ok ()⟩ ∧
    (∀ fr, loadConfig { env with fetchResult := fr } pre
      = ⟨[.configSuccess c], .ok ()⟩) := by
  constructor
  · unfold loadConfig
    rw [h]
  · intro fr
    unfold loadConfig
    rw [show ({ env with fetchResult := fr } : LoadEnv).cmsConfig = some c from h]

/-- C1 counterexample: with an injected `window.CMS_CONFIG` and a validator
that rejects every document, `loadConfig` still publishes the injected
object (`CONFIG_SUCCESS`) and succeeds — the injected configuration is
**not** validated before being published, refuting the claim. -/
theorem C1_counterexample :
    (loadConfig ⟨some (.obj [("backend", JVal.null)]), none, fun _ => .ok none,
        .error (), fun _ => false⟩ none).actions
      = [Action.configSuccess (.obj [("backend", JVal.null)])] ∧
    (LoadEnv.validate ⟨some (.obj [("backend", JVal.null)]), none, fun _ => .ok none,
        .error (), fun _ => false⟩) (.obj [("backend", JVal.null)]) = false ∧
    (loadConfig ⟨some (.obj [("backend", JVal.null)]), none, fun _ => .ok none,
        .error (), fun _ => false⟩ none).outcome = .ok () :=
  ⟨rfl, rfl, rfl⟩

theorem C1_witness :
    loadConfig ⟨some (.obj []), none, fun _ => .ok none, .error (), fun _ => true⟩ none
      = ⟨[.configSuccess (.obj [])], .ok ()⟩ :=
  (C1_injected_config ⟨some (.obj []), none, fun _ => .ok none, .error (),
    fun _ => true⟩ none (.obj []) rfl).1

/-- C2: whenever the pipeline (fetch, parse, merge, validation, default
application) throws, `loadConfig` dispatches exactly `CONFIG_REQUEST`
followed by `CONFIG_FAILURE` carrying the error — never `CONFIG_SUCCESS` —
the stored configuration document (which only a `CONFIG_SUCCESS` or
`CONFIG_MERGE` action can replace) is left unchanged, and the error is
re-thrown to the caller. -/
theorem C2_failure_no_publish (env : LoadEnv) (pre : Option JVal) (e : LoadErr)
    (hc : env.cmsConfig = none) (hp : pipeline env pre = .error e) :
    loadConfig env pre = ⟨[.configRequest, .configFailure e], .error e⟩ ∧
    (∀ c, Action.configSuccess c ∉ (loadConfig env pre).actions) ∧
    (loadConfig env pre).actions.foldl configSlot pre = pre ∧
    (loadConfig env pre).outcome = .error e := by
  have hmain : loadConfig env pre = ⟨[.configRequest, .configFailure e], .error e⟩ := by
    unfold loadConfig
    rw [hc, hp]
  refine ⟨hmain, ?_, ?_, ?_⟩
  · intro c
    rw [hmain]
    simp
  · rw [hmain]
    rfl
  · rw [hmain]

theorem C2_witness :
    loadConfig ⟨none, none, fun _ => .ok none, .ok ⟨404, none, ""⟩, fun _ => true⟩ none
      = ⟨[.configRequest, .configFailure (.loadError (some 404))],
          .error (.loadError (some 404))⟩ ∧
    (∀ c, Action.configSuccess c ∉
      (loadConfig ⟨none, none, fun _ => .ok none, .ok ⟨404, none, ""⟩, fun _ => true⟩
        none).actions) ∧
    (loadConfig ⟨none, none, fun _ => .ok none, .ok ⟨404, none, ""⟩, fun _ => true⟩
      none).actions.foldl configSlot none = none ∧
    (loadConfig ⟨none, none, fun _ => .ok none, .ok ⟨404, none, ""⟩, fun _ => true⟩
      none).outcome = .error (.loadError (some 404)) :=
  C2_failure_no_publish ⟨none, none, fun _ => .ok none, .ok ⟨404, none, ""⟩, fun _ => true⟩
    none (.loadError (some 404)) rfl rfl

/-- C10: a preloaded configuration with `load_config_file: false` disables
the network fetch entirely (the loaded document is the literal `{}` whatever
`fetch` would do), the merged document equals the preloaded one, and when
validation passes and default application succeeds the published
configuration is `applyDefaults` of the preloaded configuration alone. -/
theorem C10_load_config_file (env : LoadEnv) (kvs : List (String × JVal)) (d : JVal)
    (hc : env.cmsConfig = none)
    (hl : objGet kvs "load_config_file" = some (.bool false))
    (hv : env.validate (.obj kvs) = true)
    (hd : applyDefaults (.obj kvs) = some d) :
    loadedDoc env (some (.obj kvs)) = .ok (some (.obj [])) ∧
    (∀ fr, loadedDoc { env with fetchResult := fr } (some (.obj kvs))
      = .ok (some (.obj []))) ∧
    mergedDoc env (some (.obj kvs)) = .ok (.obj kvs) ∧
    loadConfig env (some (.obj kvs))
      = ⟨[.configRequest, .configSuccess d, .authUser], .ok ()⟩ := by
  have hlcf : loadConfigFileFalse (some (.obj kvs)) = true := by
    unfold loadConfigFileFalse
    show (match JVal.get (.obj kvs) "load_config_file" with
      | some (.bool false) => true
      | _ => false) = true
    show (match objGet kvs "load_config_file" with
      | some (.bool false) => true
      | _ => false) = true
    rw [hl]
  have hld : loadedDoc env (some (.obj kvs)) = .ok (some (.obj [])) := by
    unfold loadedDoc
    rw [hlcf]
    rfl
  have hmerged : mergedDoc env (some (.obj kvs)) = .ok (.obj kvs) := by
    unfold mergedDoc
    rw [hld]
    show Except.ok (mergePreloadedConfig (some (.obj kvs)) (some (.obj []))) = _
    unfold mergePreloadedConfig
    show Except.ok (mergeDeep (.obj kvs) (.obj [])) = _
    rw [show mergeDeep (.obj kvs) (.obj []) = .obj (mergeOver kvs []) by simp [mergeDeep],
      show mergeOver kvs [] = kvs by simp [mergeOver]]
  have hpipe : pipeline env (some (.obj kvs)) = .ok d := by
    unfold pipeline
    rw [hmerged]
    show (if env.validate (.obj kvs) = true then
        match applyDefaults (.obj kvs) with
        | some cfg => Except.ok cfg
        | none => Except.error LoadErr.defaultsError
      else Except.error LoadErr.validationError) = Except.ok d
    rw [hv, if_pos rfl, hd]
  refine ⟨hld, ?_, hmerged, ?_⟩
  · intro fr
    unfold loadedDoc
    rw [hlcf]
    rfl
  · unfold loadConfig
    rw [hc, hpipe]

theorem C10_witness :
    loadConfig ⟨none, none, fun _ => .ok none, .error (), fun _ => true⟩
        (some (.obj [("load_config_file", JVal.bool false), ("collections", JVal.arr [])]))
      = ⟨[.configRequest,
          .configSuccess (.obj [("publish_mode", JVal.str "simple"),
            ("load_config_file", JVal.bool false), ("collections", JVal.arr []),
            ("public_folder", JVal.str "/"),
            ("slug", JVal.obj [("encoding", JVal.str "unicode"),
              ("clean_accents", JVal.bool false),
              ("sanitize_replacement", JVal.str "-")])]),
          .authUser], .ok ()⟩ := by
  refine (C10_load_config_file ⟨none, none, fun _ => .ok none, .error (), fun _ => true⟩
    [("load_config_file", JVal.bool false), ("collections", JVal.arr [])] _ rfl rfl rfl
    ?_).2.2.2
  have hm : mergeDeep (.obj defaults)
      (.obj [("load_config_file", JVal.bool false), ("collections", JVal.arr [])])
      = .obj [("publish_mode", JVal.str "simple"), ("load_config_file", JVal.bool false),
        ("collections", JVal.arr [])] := by
    simp [mergeDeep, mergeOver, mergeKey, defaults]
  unfold applyDefaults
  rw [hm]
  rfl

/-- C4 (amended): on a fetch transport failure or a non-200 status, with no
preloaded configuration the load fails with the load error (carrying the
status when there is one); with a preloaded configuration of size greater
than one key — and provided the build-time `CMS_ENV` global is **not** a
string (when it is, parsing the empty fallback body reads a property of
`undefined` and the load crashes instead, see the counterexample) — the body
is treated as empty, the merged document equals the preloaded configuration,
and the load succeeds once validation and default application go through. -/
theorem C4_fetch_failure (env : LoadEnv) (hc : env.cmsConfig = none) :
    (env.fetchResult = .error () →
      loadConfig env none = ⟨[.configRequest, .configFailure (.loadError none)],
        .error (.loadError none)⟩) ∧
    (∀ r, env.fetchResult = .ok r → r.status ≠ 200 →
      loadConfig env none
        = ⟨[.configRequest, .configFailure (.loadError (some r.status))],
          .error (.loadError (some r.status))⟩) ∧
    (∀ kvs, env.cmsEnv = none → env.safeLoad "" = .ok none → 1 < kvs.length →
      loadConfigFileFalse (some (.obj kvs)) = false →
      (env.fetchResult = .error () ∨ ∃ r, env.fetchResult = .ok r ∧ r.status ≠ 200) →
      mergedDoc env (some (.obj kvs)) = .ok (.obj kvs) ∧
      (∀ d, env.validate (.obj kvs) = true → applyDefaults (.obj kvs) = some d →
        loadConfig env (some (.obj kvs))
          = ⟨[.configRequest, .configSuccess d, .authUser], .ok ()⟩)) := by
  refine ⟨?_, ?_, ?_⟩
  · intro hfe
    have hp : pipeline env none = .error (.loadError none) := by
      unfold pipeline mergedDoc loadedDoc getConfig
      rw [hfe]
      rfl
    unfold loadConfig
    rw [hc, hp]
  · intro r hr h200
    have hp : pipeline env none = .error (.loadError (some r.status)) := by
      unfold pipeline mergedDoc loadedDoc getConfig
      rw [hr]
      simp [loadConfigFileFalse, sizeGtOne, h200, Except.map]
    unfold loadConfig
    rw [hc, hp]
  · intro kvs he hy hlen hlcf hfail
    have hsz : sizeGtOne (some (.obj kvs)) = true := by
      simp [sizeGtOne, hlen]
    have hpc : parseConfig env "" = .ok none := by
      unfold parseConfig
      rw [hy, he]
    have hgc : getConfig env true = .ok none := by
      rcases hfail with hfe | ⟨r, hr, h200⟩
      · unfold getConfig
        rw [hfe]
        exact hpc
      · unfold getConfig
        rw [hr]
        simp [h200, hpc]
    have hld : loadedDoc env (some (.obj kvs)) = .ok none := by
      unfold loadedDoc
      rw [hlcf, hsz]
      show getConfig env true = .ok none
      exact hgc
    have hmerged : mergedDoc env (some (.obj kvs)) = .ok (.obj kvs) := by
      unfold mergedDoc
      rw [hld]
      show Except.ok (mergePreloadedConfig (some (.obj kvs)) none) = _
      unfold mergePreloadedConfig
      show Except.ok (mergeDeep (.obj kvs) (.obj [])) = _
      rw [show mergeDeep (.obj kvs) (.obj []) = .obj (mergeOver kvs []) by simp [mergeDeep],
        show mergeOver kvs [] = kvs by simp [mergeOver]]
    refine ⟨hmerged, ?_⟩
    intro d hv hd
    have hpipe : pipeline env (some (.obj kvs)) = .ok d := by
      unfold pipeline
      rw [hmerged]
      show (if env.validate (.obj kvs) = true then
          match applyDefaults (.obj kvs) with
          | some cfg => Except.ok cfg
          | none => Except.error LoadErr.defaultsError
        else Except.error LoadErr.validationError) = Except.ok d
      rw [hv, if_pos rfl, hd]
    unfold loadConfig
    rw [hc, hpipe]

/-- C4 counterexample: with the build-time `CMS_ENV` global set to the
string `production`, a transport-failed fetch with a preloaded configuration
of two keys does **not** succeed: `parseConfig('')` parses the empty body to
`undefined` and then reads `config[CMS_ENV]` off it, so the load throws a
`TypeError` and fails — refuting "with a preloaded configuration of size
greater than one key the load succeeds". -/
theorem C4_counterexample :
    sizeGtOne (some (.obj [("a", JVal.num 1), ("b", JVal.num 2)])) = true ∧
    loadConfig ⟨none, some "production", fun _ => .ok none, .error (), fun _ => true⟩
        (some (.obj [("a", JVal.num 1), ("b", JVal.num 2)]))
      = ⟨[.configRequest, .configFailure .typeError], .error .typeError⟩ :=
  ⟨rfl, rfl⟩

theorem C4_witness :
    loadConfig ⟨none, none, fun _ => .ok none, .ok ⟨404, none, ""⟩, fun _ => true⟩ none
      = ⟨[.configRequest, .configFailure (.loadError (some 404))],
          .error (.loadError (some 404))⟩ ∧
    mergedDoc ⟨none, none, fun _ => .ok none, .ok ⟨404, none, ""⟩, fun _ => true⟩
        (some (.obj [("a", JVal.num 1), ("collections", JVal.arr [])]))
      = .ok (.obj [("a", JVal.num 1), ("collections", JVal.arr [])]) ∧
    loadConfig ⟨none, none, fun _ => .ok none, .ok ⟨404, none, ""⟩, fun _ => true⟩
        (some (.obj [("a", JVal.num 1), ("collections", JVal.arr [])]))
      = ⟨[.configRequest,
          .configSuccess (.obj [("publish_mode", JVal.str "simple"), ("a", JVal.num 1),
            ("collections", JVal.arr []), ("public_folder", JVal.str "/"),
            ("slug", JVal.obj [("encoding", JVal.str "unicode"),
              ("clean_accents", JVal.bool false),
              ("sanitize_replacement", JVal.str "-")])]),
          .authUser], .ok ()⟩ := by
  have hmain := C4_fetch_failure
    ⟨none, none, fun _ => .ok none, .ok ⟨404, none, ""⟩, fun _ => true⟩ rfl
  have hpre := hmain.2.2 [("a", JVal.num 1), ("collections", JVal.arr [])] rfl rfl
    (by decide) rfl (Or.inr ⟨⟨404, none, ""⟩, rfl, by decide⟩)
  refine ⟨hmain.2.1 ⟨404, none, ""⟩ rfl (by decide), hpre.1, hpre.2 _ rfl ?_⟩
  have hm : mergeDeep (.obj defaults)
      (.obj [("a", JVal.num 1), ("collections", JVal.arr [])])
      = .obj [("publish_mode", JVal.str "simple"), ("a", JVal.num 1),
        ("collections", JVal.arr [])] := by
    simp [mergeDeep, mergeOver, mergeKey, defaults]
  unfold applyDefaults
  rw [hm]
  rfl

/-- C8: when `CMS_ENV` is a string and the parsed document has a same-named
truthy object-valued top-level key, `parseConfig` hoists every child of that
key over the sibling top-level keys (the overlay value replaces any existing
top-level value for the same key, other keys are untouched), and this
hoisted document is what `mergedDoc` later merges with the preloaded
configuration — the hoisting happens before the merge.  (The overlay is
assumed not to contain the environment key itself; a self-referential
overlay rebinds `config[CMS_ENV]` mid-loop.) -/
theorem C8_env_overlay (env : LoadEnv) (data : String) (e : String)
    (c ov : List (String × JVal))
    (he : env.cmsEnv = some e)
    (hp : env.safeLoad data = .ok (some (.obj c)))
    (hov : objGet c e = some (.obj ov))
    (hne : e ∉ ov.map Prod.fst) :
    parseConfig env data = .ok (some (.obj (hoistKeys e (ov.map Prod.fst) c))) ∧
    (∀ k v, objGet ov k = some v →
      objGet (hoistKeys e (ov.map Prod.fst) c) k = some v) ∧
    (∀ k, k ∉ ov.map Prod.fst →
      objGet (hoistKeys e (ov.map Prod.fst) c) k = objGet c k) ∧
    (∀ (pre : Option JVal) (r : FetchResponse), loadConfigFileFalse pre = false →
      env.fetchResult = .ok r → r.status = 200 →
      containsYaml (r.contentType.getD "Not-Found") = true → r.body = data →
      mergedDoc env pre
        = .ok (mergePreloadedConfig pre
            (some (.obj (hoistKeys e (ov.map Prod.fst) c))))) := by
  have hparse : parseConfig env data
      = .ok (some (.obj (hoistKeys e (ov.map Prod.fst) c))) := by
    unfold parseConfig
    rw [hp, he]
    simp [hov, truthy, objKeys]
  refine ⟨hparse, ?_, ?_, ?_⟩
  · intro k v hkv
    have hk : k ∈ ov.map Prod.fst := mem_of_objGet_some k v ov hkv
    rw [hoist_lookup e ov (ov.map Prod.fst) c hov hne k, if_pos hk, hkv]
    rfl
  · intro k hk
    rw [hoist_lookup e ov (ov.map Prod.fst) c hov hne k, if_neg hk]
  · intro pre r hlcf hfr h200 hyaml hbody
    unfold mergedDoc loadedDoc getConfig
    rw [hlcf, hfr]
    simp [h200, hyaml, hbody, hparse, Except.map]

theorem C8_witness :
    parseConfig ⟨none, some "production",
        fun s => if s = "cfg" then
          .ok (some (.obj [("production", JVal.obj [("a", JVal.num 1)]),
            ("a", JVal.num 0), ("b", JVal.num 5)]))
        else .ok none,
        .ok ⟨200, some "text/yaml", "cfg"⟩, fun _ => true⟩ "cfg"
      = .ok (some (.obj [("production", JVal.obj [("a", JVal.num 1)]),
          ("a", JVal.num 1), ("b", JVal.num 5)])) ∧
    mergedDoc ⟨none, some "production",
        fun s => if s = "cfg" then
          .ok (some (.obj [("production", JVal.obj [("a", JVal.num 1)]),
            ("a", JVal.num 0), ("b", JVal.num 5)]))
        else .ok none,
        .ok ⟨200, some "text/yaml", "cfg"⟩, fun _ => true⟩ (some (.obj [("z", JVal.num 0)]))
      = .ok (mergePreloadedConfig (some (.obj [("z", JVal.num 0)]))
          (some (.obj [("production", JVal.obj [("a", JVal.num 1)]),
            ("a", JVal.num 1), ("b", JVal.num 5)]))) := by
  have hall := C8_env_overlay ⟨none, some "production",
      fun s => if s = "cfg" then
        .ok (some (.obj [("production", JVal.obj [("a", JVal.num 1)]),
          ("a", JVal.num 0), ("b", JVal.num 5)]))
      else .ok none,
      .ok ⟨200, some "text/yaml", "cfg"⟩, fun _ => true⟩ "cfg" "production"
    [("production", JVal.obj [("a", JVal.num 1)]), ("a", JVal.num 0), ("b", JVal.num 5)]
    [("a", JVal.num 1)] rfl rfl rfl (by simp)
  exact ⟨hall.1.trans rfl,
    (hall.2.2.2 (some (.obj [("z", JVal.num 0)])) ⟨200, some "text/yaml", "cfg"⟩
      rfl rfl rfl rfl rfl).trans rfl⟩

end NetlifyCMS
